import Mathlib

/-!
Verification of the Connect-Four real-time game server (Go sources under
internal/models, internal/services, internal/bot and the websocket layer)
against its natural-language specification.

The board engine (models.go), the game registry (game_service.go), the
matchmaking queue (matchmaking_service.go), the reconnection tracker and
the adversary search (bot package) are shallowly embedded as pure Lean
functions.  Go machine integers are modelled as Int / Nat (no overflow is
reachable: all quantities are bounded by the 6x7 board), float64 scores of
the search are modelled by an exact score type (all float values produced
by the search are sums of small integers plus the 0.1 centre bias, so
comparisons agree with the exact ones), maps are modelled as functions
into Option, and in-place mutation as explicit state passing.
-/

/-! ## Board engine (internal/models/models.go)

A board is a 6-row by 7-column grid; cell values are 0 (empty), 1 (red),
2 (yellow).  Rows are 0 (top) to 5 (bottom).  -/
abbrev Board := Fin 6 → Fin 7 → ℕ

def NewBoard : Board := fun _ _ => 0

/-- Whether integer coordinates lie on the board (Go: `r >= 0 && r < 6 && c >= 0 && c < 7`). -/
def inB (r c : ℤ) : Prop := 0 ≤ r ∧ r < 6 ∧ 0 ≤ c ∧ c < 7

instance (r c : ℤ) : Decidable (inB r c) := by unfold inB; infer_instance

/-- Read a cell at integer coordinates.  Out-of-bounds reads yield 0; in the
Go source every read is guarded by a bounds check (or by `IsValidMove`), so
the out-of-bounds value is never observed. -/
def getc (b : Board) (r c : ℤ) : ℕ :=
  if h : inB r c then
    b ⟨r.toNat, by have h1 := h.1; have h2 := h.2.1; omega⟩
      ⟨c.toNat, by have h3 := h.2.2.1; have h4 := h.2.2.2; omega⟩
  else 0

/-- Write a cell at integer coordinates (no effect out of bounds). -/
def setc (b : Board) (r c : ℤ) (v : ℕ) : Board :=
  fun i j => if (i : ℤ) = r ∧ (j : ℤ) = c then v else b i j

/-- Go `Board.IsValidMove`: a column is playable iff it is in 0..6 and its
top cell is empty. -/
def IsValidMove (b : Board) (column : ℤ) : Bool :=
  if column < 0 ∨ column > 6 then false
  else getc b 0 column == 0

/-- Loop body of Go `Board.DropDisc`: scan the given rows (bottom-up order
in the caller) for the first empty cell in `column`. -/
def dropLoop (b : Board) (column : ℤ) (playerNum : ℕ) : List ℤ → Board × ℤ
  | [] => (b, -1)
  | r :: rest =>
    if getc b r column = 0 then (setc b r column playerNum, r)
    else dropLoop b column playerNum rest

/-- Go `Board.DropDisc`: place a disc in `column`, returning the new board
and the landing row, or row -1 when the column is full.  Go indexes the
array directly and would panic on an out-of-range column; every call site
validates the column first, and we fold that case into the -1 failure. -/
def DropDisc (b : Board) (column : ℤ) (playerNum : ℕ) : Board × ℤ :=
  if column < 0 ∨ column > 6 then (b, -1)
  else dropLoop b column playerNum [5, 4, 3, 2, 1, 0]

/-- One directional scan of Go `Board.checkDirection`: the number of
consecutive cells equal to `player`, walking from `(r, c)` in direction
`(dr, dc)` while in bounds.  The walk visits at most 6 cells (it starts one
step away from an in-bounds origin), so fuel 7 never runs out. -/
def walk (b : Board) (player : ℕ) (dr dc : ℤ) : ℕ → ℤ → ℤ → ℕ
  | 0, _, _ => 0
  | fuel + 1, r, c =>
    if inB r c ∧ getc b r c = player then walk b player dr dc fuel (r + dr) (c + dc) + 1
    else 0

/-- Go `Board.checkDirection`: both directional scans plus the origin reach 4. -/
def checkDirection (b : Board) (row col dr dc : ℤ) (player : ℕ) : Bool :=
  decide (4 ≤ 1 + walk b player dr dc 7 (row + dr) (col + dc)
            + walk b player (-dr) (-dc) 7 (row - dr) (col - dc))

/-- The four line orientations scanned by `CheckWin`. -/
def winDirections : List (ℤ × ℤ) := [(0, 1), (1, 0), (1, 1), (-1, 1)]

/-- Go `Board.CheckWin`: whether the cell last placed at `(row, col)` sits on
a line of at least four same-coloured discs. -/
def CheckWin (b : Board) (row col : ℤ) : Bool :=
  let player := getc b row col
  if player = 0 then false
  else winDirections.any fun d => checkDirection b row col d.1 d.2 player

/-- Go `Board.IsFull`: every top cell is occupied. -/
def IsFull (b : Board) : Bool :=
  ([0, 1, 2, 3, 4, 5, 6] : List ℤ).all fun c => !(getc b 0 c == 0)

/-- Number of non-empty cells of a board (the quantity the spec relates to
`move_count`). -/
def countPieces (b : Board) : ℕ :=
  ∑ x : Fin 6 × Fin 7, if b x.1 x.2 ≠ 0 then 1 else 0

/-! ## Session data model (internal/models/models.go)

Timestamps are modelled as integers supplied by the caller (the `now`
parameter stands for `time.Now()`); the database handle and the Kafka
producer perform only best-effort side effects in the Go code and carry no
information back into the session state, so they are omitted. -/
inductive PlayerColor where
  | red
  | yellow
deriving DecidableEq, Repr

inductive GameStatus where
  | active
  | completed
  | forfeited
  | draw
deriving DecidableEq, Repr

structure PlayerInfo where
  id : ℤ
  username : String
  color : PlayerColor
  isBot : Bool
  socketId : String
deriving DecidableEq, Repr

/-- Go `models.GameState` (the per-game authoritative session). -/
structure GameState where
  player1 : PlayerInfo
  player2 : PlayerInfo
  board : Board
  currentTurn : PlayerColor
  status : GameStatus
  winner : Option String
  moveCount : ℕ
  startedAt : ℤ
  completedAt : Option ℤ
deriving DecidableEq

/-- Go `models.MovePayload`.  `nextTurn = none` models the Go zero value the
field keeps when `handleGameEnd` builds the payload without setting it. -/
structure MovePayload where
  column : ℤ
  row : ℤ
  color : PlayerColor
  nextTurn : Option PlayerColor
  board : Board
  moveNumber : ℕ
deriving DecidableEq

structure GameOverPayload where
  winner : Option String
  reason : String
  board : Board
  duration : ℤ
deriving DecidableEq

abbrev GameId := ℕ

/-- The active-game registry `map[uuid.UUID]*models.GameState`. -/
abbrev GamesMap := GameId → Option GameState

def updateGame (games : GamesMap) (gameID : GameId) (g : GameState) : GamesMap :=
  fun x => if x = gameID then some g else games x

/-! ## Game registry (internal/services/game_service.go) -/
/-- The session literal built by Go `GameService.CreateGame` (its database
row creation and event publication carry nothing back into the session). -/
def CreateGameState (player1 player2 : PlayerInfo) (now : ℤ) : GameState :=
  { player1 := player1
    player2 := player2
    board := NewBoard
    currentTurn := .red
    status := .active
    winner := none
    moveCount := 0
    startedAt := now
    completedAt := none }

/-- Go `GameService.handleGameEnd`. -/
def handleGameEnd (game : GameState) (winnerID : Option ℤ) (reason : String)
    (column row : ℤ) (color : PlayerColor) (now : ℤ) :
    GameState × MovePayload × GameOverPayload :=
  let status := if reason = "draw" then GameStatus.draw else GameStatus.completed
  let winner :=
    if reason = "draw" then game.winner
    else match winnerID with
      | none => game.winner
      | some w =>
        if w = game.player1.id then some game.player1.username
        else some game.player2.username
  let game' := { game with completedAt := some now, status := status, winner := winner }
  ( game'
  , { column := column, row := row, color := color, nextTurn := none
      board := game'.board, moveNumber := game'.moveCount }
  , { winner := game'.winner, reason := reason, board := game'.board
      duration := now - game.startedAt } )

/-- Body of Go `GameService.MakeMove` after the registry lookup: the
turn/validation state machine acting on one session. -/
def MakeMoveBody (game : GameState) (playerID column now : ℤ) :
    Except String (GameState × MovePayload × Option GameOverPayload) :=
  if game.status ≠ .active then .error "game is not active"
  else
    let currentPlayer := if game.currentTurn = .yellow then game.player2 else game.player1
    if currentPlayer.id ≠ playerID then .error "not your turn"
    else if ¬ IsValidMove game.board column then .error "invalid move: column is full"
    else
      let playerNum : ℕ := if game.currentTurn = .yellow then 2 else 1
      let dropped := DropDisc game.board column playerNum
      if dropped.2 = -1 then .error "failed to drop disc"
      else
        let game1 := { game with board := dropped.1, moveCount := game.moveCount + 1 }
        if CheckWin game1.board dropped.2 column then
          let fin := handleGameEnd game1 (some currentPlayer.id) "win" column dropped.2
                       currentPlayer.color now
          .ok (fin.1, fin.2.1, some fin.2.2)
        else if IsFull game1.board then
          let fin := handleGameEnd game1 none "draw" column dropped.2 currentPlayer.color now
          .ok (fin.1, fin.2.1, some fin.2.2)
        else
          let newTurn := if game.currentTurn = .red then PlayerColor.yellow else PlayerColor.red
          let game2 := { game1 with currentTurn := newTurn }
          .ok ( game2
              , { column := column, row := dropped.2, color := currentPlayer.color
                  nextTurn := some newTurn, board := game2.board
                  moveNumber := game2.moveCount }
              , none )

/-- Go `GameService.MakeMove`: lookup in the active-game map, then the
session state machine; the updated session is written back (the Go code
mutates it in place through the map pointer). -/
def MakeMove (games : GamesMap) (gameID : GameId) (playerID column now : ℤ) :
    GamesMap × Except String (MovePayload × Option GameOverPayload) :=
  match games gameID with
  | none => (games, .error "game not found")
  | some game =>
    match MakeMoveBody game playerID column now with
    | .error e => (games, .error e)
    | .ok (g', mp, go?) => (updateGame games gameID g', .ok (mp, go?))

/-! ## Adversary search (internal/bot, bot.go)

The Go search works on float64 scores.  Every score it produces is either
an integer window sum, an integer forced-win bonus, an infinity used as a
sentinel, or one of those plus the 0.1 centre bias; all comparisons the
code performs on such values coincide with exact rational comparisons, so
scores are embedded as an extended-rational type. -/
inductive FScore where
  | negInf
  | fin (q : ℚ)
  | posInf
deriving DecidableEq

/-- Strict float comparison on the scores the search produces
(`-Inf < -Inf` is false, as for float64). -/
def FScore.ltF : FScore → FScore → Bool
  | .negInf, .negInf => false
  | .negInf, _ => true
  | .fin _, .negInf => false
  | .fin a, .fin b => a < b
  | .fin _, .posInf => true
  | .posInf, _ => false

def FScore.leF (a b : FScore) : Bool := !(FScore.ltF b a)

/-- Go `math.Max` on these scores. -/
def FScore.maxF (a b : FScore) : FScore := if FScore.ltF a b then b else a

/-- Go `math.Min` on these scores. -/
def FScore.minF (a b : FScore) : FScore := if FScore.ltF b a then b else a

/-- Adding the 0.1 centre bias (`score += 0.1`); infinities absorb it. -/
def FScore.addTenth : FScore → FScore
  | .fin q => .fin (q + 1 / 10)
  | s => s

def botNum : ℕ := 2

def humanNum : ℕ := 1

def maxDepth : ℕ := 5

/-- Cell read with natural-number coordinates, used by the evaluation
loops (all their indices are in range by construction). -/
def getN (b : Board) (r c : ℕ) : ℕ := getc b (r : ℤ) (c : ℤ)

/-- One iteration of the counting loop in Go `Bot.evaluateWindow`: classify
a cell as bot, human or empty (in that order) and bump the matching
counter. -/
def ewStep (acc : ℕ × ℕ × ℕ) (cell : ℕ) : ℕ × ℕ × ℕ :=
  if cell = botNum then (acc.1 + 1, acc.2.1, acc.2.2)
  else if cell = humanNum then (acc.1, acc.2.1 + 1, acc.2.2)
  else (acc.1, acc.2.1, acc.2.2 + 1)

/-- Go `Bot.evaluateWindow`: the for-loop classifies each cell as bot,
human or empty (in that order) and accumulates the three counters, then
scores the window. -/
def evaluateWindow (window : List ℕ) : ℤ :=
  let counts := window.foldl ewStep (0, 0, 0)
  let botCount := counts.1
  let humanCount := counts.2.1
  let emptyCount := counts.2.2
  (if botCount = 4 then 100
   else if botCount = 3 ∧ emptyCount = 1 then 10
   else if botCount = 2 ∧ emptyCount = 2 then 5
   else 0)
  + (if humanCount = 3 ∧ emptyCount = 1 then -80 else 0)

/-- Go `Bot.evaluateBoard`: the four window-scan loop nests, written as
sums over the same index ranges. -/
def evaluateBoard (b : Board) : ℤ :=
  (((List.range 6).map fun row =>
      (((List.range 4).map fun col =>
          evaluateWindow [getN b row col, getN b row (col + 1),
                          getN b row (col + 2), getN b row (col + 3)]).sum)).sum)
  + (((List.range 7).map fun col =>
      (((List.range 3).map fun row =>
          evaluateWindow [getN b row col, getN b (row + 1) col,
                          getN b (row + 2) col, getN b (row + 3) col]).sum)).sum)
  + (((List.range' 3 3).map fun row =>
      (((List.range 4).map fun col =>
          evaluateWindow [getN b row col, getN b (row - 1) (col + 1),
                          getN b (row - 2) (col + 2), getN b (row - 3) (col + 3)]).sum)).sum)
  + (((List.range 3).map fun row =>
      (((List.range 4).map fun col =>
          evaluateWindow [getN b row col, getN b (row + 1) (col + 1),
                          getN b (row + 2) (col + 2), getN b (row + 3) (col + 3)]).sum)).sum)

/-- The column ranges `for col := 0; col < 7; col++` iterate over. -/
def cols7 : List ℤ := [0, 1, 2, 3, 4, 5, 6]

/-- The maximizing loop of Go `Bot.minimax`.  `recur` is the recursive call
at depth-1; `depth` is the current depth (used by the forced-win bonus,
which returns from the whole minimax call).  Accumulators: `maxEval` and
the mutating `alpha`; `beta` is fixed in this branch. -/
def abMaxLoop (recur : Board → FScore → FScore → FScore) (b : Board) (depth : ℕ)
    (beta : FScore) : List ℤ → FScore → FScore → FScore
  | [], maxEval, _ => maxEval
  | col :: rest, maxEval, alpha =>
    if IsValidMove b col then
      let dropped := DropDisc b col botNum
      if CheckWin dropped.1 dropped.2 col then .fin (1000 + depth)
      else
        let eval := recur dropped.1 alpha beta
        let maxEval' := FScore.maxF maxEval eval
        let alpha' := FScore.maxF alpha eval
        if FScore.leF beta alpha' then maxEval'
        else abMaxLoop recur b depth beta rest maxEval' alpha'
    else abMaxLoop recur b depth beta rest maxEval alpha

/-- The minimizing loop of Go `Bot.minimax` (opponent simulated with
`humanNum`; `beta` mutates, `alpha` is fixed). -/
def abMinLoop (recur : Board → FScore → FScore → FScore) (b : Board) (depth : ℕ)
    (alpha : FScore) : List ℤ → FScore → FScore → FScore
  | [], minEval, _ => minEval
  | col :: rest, minEval, beta =>
    if IsValidMove b col then
      let dropped := DropDisc b col humanNum
      if CheckWin dropped.1 dropped.2 col then .fin (-1000 - depth)
      else
        let eval := recur dropped.1 alpha beta
        let minEval' := FScore.minF minEval eval
        let beta' := FScore.minF beta eval
        if FScore.leF beta' alpha then minEval'
        else abMinLoop recur b depth alpha rest minEval' beta'
    else abMinLoop recur b depth alpha rest minEval beta

/-- Go `Bot.minimax`, by structural recursion on the depth. -/
def minimax : ℕ → Board → FScore → FScore → Bool → FScore
  | 0, b, _, _, _ => .fin (evaluateBoard b)
  | depth + 1, b, alpha, beta, isMaximizing =>
    if IsFull b then .fin (evaluateBoard b)
    else if isMaximizing then
      abMaxLoop (fun b' a' b'' => minimax depth b' a' b'' false) b (depth + 1) beta
        cols7 .negInf alpha
    else
      abMinLoop (fun b' a' b'' => minimax depth b' a' b'' true) b (depth + 1) alpha
        cols7 .posInf beta

/-- Loop of Go `Bot.findWinningMove`. -/
def fwmLoop (b : Board) (playerNum : ℕ) : List ℤ → ℤ
  | [] => -1
  | col :: rest =>
    if IsValidMove b col then
      let dropped := DropDisc b col playerNum
      if CheckWin dropped.1 dropped.2 col then col else fwmLoop b playerNum rest
    else fwmLoop b playerNum rest

/-- Go `Bot.findWinningMove`: first column whose simulated drop wins for
`playerNum`, else -1. -/
def findWinningMove (b : Board) (playerNum : ℕ) : ℤ := fwmLoop b playerNum cols7

/-- The candidate-scoring loop of Go `Bot.GetBestMove`; accumulators are
`bestScore` and `bestCol`. -/
def bestLoop (b : Board) : List ℤ → FScore → ℤ → FScore × ℤ
  | [], bestScore, bestCol => (bestScore, bestCol)
  | col :: rest, bestScore, bestCol =>
    if IsValidMove b col then
      let dropped := DropDisc b col botNum
      let score0 := minimax (maxDepth - 1) dropped.1 .negInf .posInf false
      let score := if col = 3 then score0.addTenth else score0
      if FScore.ltF bestScore score then bestLoop b rest score col
      else bestLoop b rest bestScore bestCol
    else bestLoop b rest bestScore bestCol

/-- The fallback scan `for col := 0; col < 7 ... if IsValidMove return col`. -/
def firstValid (b : Board) : List ℤ → Option ℤ
  | [] => none
  | col :: rest => if IsValidMove b col then some col else firstValid b rest

/-- Go `Bot.GetBestMove`. -/
def GetBestMove (b : Board) : ℤ :=
  let w := findWinningMove b botNum
  if w ≠ -1 then w
  else
    let w2 := findWinningMove b humanNum
    if w2 ≠ -1 then w2
    else
      let best := bestLoop b cols7 .negInf (-1)
      let bestCol := best.2
      if bestCol = -1 then
        if IsValidMove b 3 then 3
        else
          match firstValid b cols7 with
          | some col => col
          | none => bestCol
      else bestCol

/-- Body of Go `GameService.MakeBotMove` after the registry lookup (the
text of the not-your-turn error message is paraphrased; no claim concerns
error texts). -/
def MakeBotMoveBody (game : GameState) (now : ℤ) :
    Except String (GameState × MovePayload × Option GameOverPayload) :=
  if game.status ≠ .active then .error "game is not active"
  else if ¬ game.player2.isBot then .error "player 2 is not a bot"
  else if game.currentTurn ≠ game.player2.color then .error "not the turn of the bot"
  else
    let column := GetBestMove game.board
    let dropped := DropDisc game.board column 2
    if dropped.2 = -1 then .error "failed to drop disc"
    else
      let game1 := { game with board := dropped.1, moveCount := game.moveCount + 1 }
      if CheckWin game1.board dropped.2 column then
        let fin := handleGameEnd game1 (some game.player2.id) "win" column dropped.2
                     game.player2.color now
        .ok (fin.1, fin.2.1, some fin.2.2)
      else if IsFull game1.board then
        let fin := handleGameEnd game1 none "draw" column dropped.2 game.player2.color now
        .ok (fin.1, fin.2.1, some fin.2.2)
      else
        let game2 := { game1 with currentTurn := PlayerColor.red }
        .ok ( game2
            , { column := column, row := dropped.2, color := game.player2.color
                nextTurn := some PlayerColor.red, board := game2.board
                moveNumber := game2.moveCount }
            , none )

/-- Go `GameService.MakeBotMove`. -/
def MakeBotMove (games : GamesMap) (gameID : GameId) (now : ℤ) :
    GamesMap × Except String (MovePayload × Option GameOverPayload) :=
  match games gameID with
  | none => (games, .error "game not found")
  | some game =>
    match MakeBotMoveBody game now with
    | .error e => (games, .error e)
    | .ok (g', mp, go?) => (updateGame games gameID g', .ok (mp, go?))

/-- Go `GameService.ForfeitGame`.  Note that, apart from the lookup, the
function performs no status check: it rewrites the session
unconditionally. -/
def ForfeitGame (games : GamesMap) (gameID : GameId) (playerID now : ℤ) :
    GamesMap × Except String Unit :=
  match games gameID with
  | none => (games, .error "game not found")
  | some game =>
    let winnerID := if game.player1.id = playerID then game.player2.id else game.player1.id
    let winner :=
      if winnerID = game.player1.id then some game.player1.username
      else some game.player2.username
    let game' := { game with completedAt := some now, status := .forfeited, winner := winner }
    (updateGame games gameID game', .ok ())

/-! ## Reconnection tracker (ReconnectionService) -/
/-- Go `models.DisconnectedPlayer` (the timestamp is irrelevant to the
verified behaviour and omitted). -/
structure DisconnectedPlayer where
  playerId : ℤ
  username : String
  gameId : GameId
deriving DecidableEq

/-- The `map[string]*models.DisconnectedPlayer` of the reconnection service. -/
abbrev DiscMap := String → Option DisconnectedPlayer

def removeDisc (disc : DiscMap) (username : String) : DiscMap :=
  fun u => if u = username then none else disc u

/-- Go `ReconnectionService.HandleReconnection`: look up the disconnect
record; absent gives (nil, nil); then `GetGame` on the recorded game id
(an error if the id is not in the active-game map); on success delete the
record and hand the session back.  No status check is performed. -/
def HandleReconnection (disc : DiscMap) (games : GamesMap) (username : String) :
    DiscMap × Except String (Option GameState) :=
  match disc username with
  | none => (disc, .ok none)
  | some player =>
    match games player.gameId with
    | none => (disc, .error "game not found")
    | some gameState => (removeDisc disc username, .ok (some gameState))

/-! ## Matchmaking queue (internal/services/matchmaking_service.go) -/
/-- Go `models.WaitingPlayer` (the join timestamp plays no role in the
verified behaviour). -/
structure WaitingPlayer where
  username : String
  playerId : ℤ
  socketId : String
  timerDone : Bool
deriving DecidableEq

/-- The player-1 info Go `createMatch` builds: the dequeued head, seated red. -/
def matchP1Info (p : WaitingPlayer) : PlayerInfo :=
  { id := p.playerId, username := p.username, color := .red, isBot := false
    socketId := p.socketId }

/-- The player-2 info Go `createMatch` builds: the new arrival, seated yellow. -/
def matchP2Info (p : WaitingPlayer) : PlayerInfo :=
  { id := p.playerId, username := p.username, color := .yellow, isBot := false
    socketId := p.socketId }

/-- Go `MatchmakingService.JoinQueue`.  `resolvedID` stands for the player id
the database lookup/creation resolves the username to (that call only fails
on storage errors, which are orthogonal to the queue logic).  The returned
option is the pair of player infos handed to the asynchronous
`createMatch` goroutine (and from there to `CreateGame`) when the arrival
is paired with the queue head; `none` means the arrival was enqueued. -/
def JoinQueue (queue : List WaitingPlayer) (username socketID : String)
    (resolvedID : ℤ) : List WaitingPlayer × Except String (Option (PlayerInfo × PlayerInfo)) :=
  if queue.any fun p => p.username = username then
    (queue, .error "player already in queue")
  else
    let waitingPlayer : WaitingPlayer :=
      { username := username, playerId := resolvedID, socketId := socketID
        timerDone := false }
    match queue with
    | opponent :: rest =>
      (rest, .ok (some (matchP1Info opponent, matchP2Info waitingPlayer)))
    | [] => (queue ++ [waitingPlayer], .ok none)

/-! ## MakeMove error conditions (claim C2) -/
/-- The participant whose color equals the session's turn color (the
spec's phrasing of whose turn it is); the code instead selects player 1
on red and player 2 on yellow, and the two coincide for every session the
server creates (player 1 seated red, player 2 yellow). -/
def colorParticipant (s : GameState) : PlayerInfo :=
  if s.player1.color = s.currentTurn then s.player1 else s.player2

/-- Sessions reachable through the game service: created by `CreateGame`
and evolved by successful `MakeMove` / `MakeBotMove` calls.  The color
hypotheses on creation record how both call sites of `CreateGame`
(`createMatch` and `createBotMatch` in the matchmaking service) seat the
players: player 1 red, player 2 yellow. -/
inductive Reach : GameState → Prop where
  | created (player1 player2 : PlayerInfo) (now : ℤ)
      (h1 : player1.color = .red) (h2 : player2.color = .yellow) :
      Reach (CreateGameState player1 player2 now)
  | move (s : GameState) (pid col now : ℤ)
      (out : GameState × MovePayload × Option GameOverPayload)
      (hs : Reach s) (h : MakeMoveBody s pid col now = .ok out) : Reach out.1
  | botMove (s : GameState) (now : ℤ)
      (out : GameState × MovePayload × Option GameOverPayload)
      (hs : Reach s) (h : MakeBotMoveBody s now = .ok out) : Reach out.1

def alicePlayer : PlayerInfo :=
  { id := 1, username := "alice", color := .red, isBot := false, socketId := "s1" }

def bobPlayer : PlayerInfo :=
  { id := 2, username := "bob", color := .yellow, isBot := false, socketId := "s2" }

def demoSession : GameState := CreateGameState alicePlayer bobPlayer 0

def demoGames : GamesMap := fun g => if g = 0 then some demoSession else none

/-! ## Win detection (claim C6)

The spec describes `check_win` as counting consecutive same-color cells
through the last-placed cell.  `okStep` is the spec-side predicate for the
cell `i` steps away from the origin in a given orientation, and `runLen`
the maximal run of such cells; the bridge lemmas identify the code's
bounded while-loop with that maximal run. -/
def okStep (b : Board) (p : ℕ) (r c dr dc : ℤ) (i : ℕ) : Prop :=
  inB (r + i * dr) (c + i * dc) ∧ getc b (r + i * dr) (c + i * dc) = p

instance (b : Board) (p : ℕ) (r c dr dc : ℤ) (i : ℕ) :
    Decidable (okStep b p r c dr dc i) := by
  unfold okStep
  infer_instance

/-- The maximal `n` such that the cells 1..n steps from the origin are all
on the board and of color `p` (7 bounds every run on a 6x7 board). -/
def runLen (b : Board) (p : ℕ) (r c dr dc : ℤ) : ℕ :=
  Nat.findGreatest (fun n => ∀ i, i < n → okStep b p r c dr dc (i + 1)) 7

/-- Spec-side count of consecutive same-color cells through the origin in
orientation `(dr, dc)`: both directions plus the origin cell itself. -/
def lineCount (b : Board) (p : ℕ) (r c dr dc : ℤ) : ℕ :=
  runLen b p r c dr dc + runLen b p r c (-dr) (-dc) + 1

/-! ## Adversary probes and column validity (claims C7, C10) -/
/-- Column `c` is legal and dropping a disc of `p` there wins immediately
(the property the immediate-win and immediate-block probes test). -/
def winAfterDrop (b : Board) (p : ℕ) (c : ℤ) : Prop :=
  IsValidMove b c = true ∧
    CheckWin (DropDisc b c p).1 (DropDisc b c p).2 c = true

instance (b : Board) (p : ℕ) (c : ℤ) : Decidable (winAfterDrop b p c) := by
  unfold winAfterDrop
  infer_instance

/-- Scenario S6 of the spec: red discs on the bottom row of columns 0, 1, 2,
nothing else. -/
def s6Board : Board := fun i j => if (i : ℕ) = 5 ∧ (j : ℕ) ≤ 2 then 1 else 0

/-! ## Heuristic evaluation windows (claim C8)

Spec-side enumeration of every length-4 window of a 6x7 board, as
coordinate lists per orientation, and the spec's window scoring; the
theorem identifies the code's four loop nests with the sum over these
windows and counts them. -/
def horizWindows : List (List (ℕ × ℕ)) :=
  (List.range 6).bind fun r =>
    (List.range 4).map fun c => [(r, c), (r, c + 1), (r, c + 2), (r, c + 3)]

def vertWindows : List (List (ℕ × ℕ)) :=
  (List.range 7).bind fun c =>
    (List.range 3).map fun r => [(r, c), (r + 1, c), (r + 2, c), (r + 3, c)]

/-- The up-right diagonal windows (rows 3..5 as in the code's third loop). -/
def diagUpWindows : List (List (ℕ × ℕ)) :=
  (List.range' 3 3).bind fun r =>
    (List.range 4).map fun c => [(r, c), (r - 1, c + 1), (r - 2, c + 2), (r - 3, c + 3)]

def diagDownWindows : List (List (ℕ × ℕ)) :=
  (List.range 3).bind fun r =>
    (List.range 4).map fun c => [(r, c), (r + 1, c + 1), (r + 2, c + 2), (r + 3, c + 3)]

def allWindows : List (List (ℕ × ℕ)) :=
  horizWindows ++ vertWindows ++ diagUpWindows ++ diagDownWindows

def windowCells (b : Board) (w : List (ℕ × ℕ)) : List ℕ :=
  w.map fun rc => getN b rc.1 rc.2

/-- The window contribution exactly as the spec words it: +100 for four
adversary discs, +10 for three adversary and one empty, +5 for two
adversary and two empties, and -80 for three opponent discs and one
empty. -/
def specWindowScore (w : List ℕ) : ℤ :=
  let adversary := w.count 2
  let opponent := w.count 1
  let empty := w.countP fun x => !(x == 2) && !(x == 1)
  (if adversary = 4 then 100
   else if adversary = 3 ∧ empty = 1 then 10
   else if adversary = 2 ∧ empty = 2 then 5
   else 0) +
  (if opponent = 3 ∧ empty = 1 then -80 else 0)

/-! ## Forfeit and reconnection (claims C1, C3) -/
def completedSession : GameState := { demoSession with status := .completed }

def forfeitGamesMap : GamesMap := fun g => if g = 0 then some completedSession else none

def aliceDisc : DisconnectedPlayer := { playerId := 1, username := "alice", gameId := 0 }

def discMap0 : DiscMap := fun u => if u = "alice" then some aliceDisc else none

/-! ## Matchmaking pairing (claim C9) -/
def aliceWaiting : WaitingPlayer :=
  { username := "alice", playerId := 1, socketId := "s1", timerDone := false }

def bobWaiting : WaitingPlayer :=
  { username := "bob", playerId := 2, socketId := "s2", timerDone := false }

/-- Four red discs on the bottom row, a horizontal win through (5, 0). -/
def winBoard : Board := fun i j => if (i : ℕ) = 5 ∧ (j : ℕ) ≤ 3 then 1 else 0

/-! ## Board engine lemmas -/
theorem getc_coe (b : Board) (i : Fin 6) (j : Fin 7) : getc b (i : ℤ) (j : ℤ) = b i j := by
  have hi := i.isLt
  have hj := j.isLt
  rw [getc, dif_pos (by exact ⟨by omega, by exact_mod_cast hi, by omega, by exact_mod_cast hj⟩)]
  congr 1

theorem IsValidMove_iff (b : Board) (col : ℤ) :
    IsValidMove b col = true ↔ (0 ≤ col ∧ col ≤ 6 ∧ getc b 0 col = 0) := by
  unfold IsValidMove
  by_cases h : col < 0 ∨ col > 6
  · simp [h]; omega
  · simp [h]; omega

theorem dropLoop_cases (b : Board) (col : ℤ) (p : ℕ) (rows : List ℤ) :
    (dropLoop b col p rows = (b, -1) ∧ ∀ r ∈ rows, getc b r col ≠ 0) ∨
    (∃ r ∈ rows, getc b r col = 0 ∧ dropLoop b col p rows = (setc b r col p, r)) := by
  induction rows with
  | nil => exact Or.inl ⟨rfl, by simp⟩
  | cons r rest ih =>
    by_cases h : getc b r col = 0
    · exact Or.inr ⟨r, by simp, h, by simp [dropLoop, h]⟩
    · rcases ih with ⟨heq, hall⟩ | ⟨r', hmem, hz, heq⟩
      · refine Or.inl ⟨by simp [dropLoop, h, heq], ?_⟩
        intro x hx
        rcases List.mem_cons.mp hx with rfl | hx
        · exact h
        · exact hall x hx
      · exact Or.inr ⟨r', List.mem_cons_of_mem _ hmem, hz, by simp [dropLoop, h, heq]⟩

theorem DropDisc_valid (b : Board) (col : ℤ) (p : ℕ) (h : IsValidMove b col = true) :
    ∃ r : ℤ, 0 ≤ r ∧ r < 6 ∧ getc b r col = 0 ∧
      DropDisc b col p = (setc b r col p, r) := by
  rcases (IsValidMove_iff b col).mp h with ⟨h0, h6, htop⟩
  have hrange : ¬ (col < 0 ∨ col > 6) := by omega
  rcases dropLoop_cases b col p [5, 4, 3, 2, 1, 0] with ⟨_, hall⟩ | ⟨r, hmem, hz, heq⟩
  · exact absurd htop (hall 0 (by simp))
  · refine ⟨r, ?_, ?_, hz, ?_⟩
    · simp at hmem; omega
    · simp at hmem; omega
    · rw [DropDisc, if_neg hrange, heq]

theorem DropDisc_valid_row (b : Board) (col : ℤ) (p : ℕ) (h : IsValidMove b col = true) :
    (DropDisc b col p).2 ≠ -1 := by
  rcases DropDisc_valid b col p h with ⟨r, hr0, _, _, heq⟩
  rw [heq]
  simp only [ne_eq]
  omega

theorem countPieces_setc (b : Board) (r c : ℤ) (v : ℕ) (hin : inB r c)
    (hz : getc b r c = 0) (hv : v ≠ 0) :
    countPieces (setc b r c v) = countPieces b + 1 := by
  obtain ⟨h0, h6, hc0, hc7⟩ := hin
  set ri : Fin 6 := ⟨r.toNat, by omega⟩ with hri
  set ci : Fin 7 := ⟨c.toNat, by omega⟩ with hci
  have hrr : (ri : ℤ) = r := by simp [hri]; omega
  have hcc : (ci : ℤ) = c := by simp [hci]; omega
  have hb0 : b ri ci = 0 := by
    have h1 : getc b (ri : ℤ) (ci : ℤ) = 0 := by rw [hrr, hcc]; exact hz
    rwa [getc_coe] at h1
  have hiff : ∀ (i : Fin 6) (j : Fin 7), ((i : ℤ) = r ∧ (j : ℤ) = c) ↔ (i = ri ∧ j = ci) := by
    intro i j
    constructor
    · rintro ⟨hi, hj⟩
      refine ⟨Fin.ext ?_, Fin.ext ?_⟩ <;> omega
    · rintro ⟨rfl, rfl⟩
      exact ⟨hrr, hcc⟩
  have hset : ∀ (i : Fin 6) (j : Fin 7), setc b r c v i j =
      if i = ri ∧ j = ci then v else b i j := by
    intro i j
    simp only [setc]
    exact if_congr (hiff i j) rfl rfl
  have hmem : ((ri, ci) : Fin 6 × Fin 7) ∈ (Finset.univ : Finset (Fin 6 × Fin 7)) :=
    Finset.mem_univ _
  have hat : setc b r c v ri ci = v := by rw [hset]; simp
  have hL : countPieces (setc b r c v) =
      (∑ x ∈ Finset.univ.erase ((ri, ci) : Fin 6 × Fin 7),
        if setc b r c v x.1 x.2 ≠ 0 then 1 else 0) + 1 := by
    unfold countPieces
    rw [← Finset.sum_erase_add _ _ hmem]
    congr 1
    simp [hat, hv]
  have hR : countPieces b =
      ∑ x ∈ Finset.univ.erase ((ri, ci) : Fin 6 × Fin 7),
        if b x.1 x.2 ≠ 0 then 1 else 0 := by
    unfold countPieces
    rw [← Finset.sum_erase_add _ _ hmem]
    simp [hb0]
  have hcong : ∀ x ∈ Finset.univ.erase ((ri, ci) : Fin 6 × Fin 7),
      (if setc b r c v x.1 x.2 ≠ 0 then 1 else 0) = if b x.1 x.2 ≠ 0 then 1 else 0 := by
    intro x hx
    have hne := Finset.ne_of_mem_erase hx
    have hcond : ¬ (x.1 = ri ∧ x.2 = ci) := by
      rintro ⟨h1, h2⟩
      exact hne (Prod.ext h1 h2)
    rw [hset x.1 x.2, if_neg hcond]
  rw [hL, hR, Finset.sum_congr rfl hcong]

theorem colorParticipant_eq (s : GameState) (h1 : s.player1.color = .red)
    (h2 : s.player2.color = .yellow) :
    (if s.currentTurn = PlayerColor.yellow then s.player2 else s.player1) =
      colorParticipant s := by
  cases hturn : s.currentTurn <;> simp [colorParticipant, hturn, h1, h2]

theorem MakeMoveBody_error_iff (s : GameState) (pid col now : ℤ)
    (h1 : s.player1.color = .red) (h2 : s.player2.color = .yellow) :
    (∃ e, MakeMoveBody s pid col now = .error e) ↔
      (s.status ≠ .active ∨ pid ≠ (colorParticipant s).id ∨
        ¬ IsValidMove s.board col = true) := by
  have hcur := colorParticipant_eq s h1 h2
  simp only [MakeMoveBody, hcur]
  by_cases hst : s.status = GameStatus.active
  · rw [if_neg (by simp [hst])]
    by_cases hpid : (colorParticipant s).id = pid
    · rw [if_neg (by simp [hpid])]
      by_cases hvalid : IsValidMove s.board col = true
      · rw [if_neg (by simp [hvalid])]
        rw [if_neg (by simpa using DropDisc_valid_row s.board col _ hvalid)]
        constructor
        · rintro ⟨e, he⟩
          split_ifs at he
        · rintro (h | h | h) <;> simp_all
      · rw [if_pos (by simpa using hvalid)]
        simp [hst, hvalid]
    · rw [if_pos (by simpa using hpid)]
      simp
      right
      left
      exact fun h => hpid h.symm
  · rw [if_pos (by simpa using hst)]
    simp [hst]

/-- Claim C2: apply_move returns an error exactly when the game is absent,
or the session is not Active, or the acting player is not the participant
whose color matches the turn color, or the column is illegal; and every
error leaves the registry (hence the session) unchanged.  The color
hypothesis records how the server seats every session it creates (player 1
red, player 2 yellow, see createMatch and createBotMatch). -/
theorem makeMove_error_conditions (games : GamesMap) (gameID : GameId)
    (playerID column now : ℤ)
    (hcolors : ∀ s, games gameID = some s →
      s.player1.color = .red ∧ s.player2.color = .yellow) :
    ((∃ e, (MakeMove games gameID playerID column now).2 = .error e) ↔
      (games gameID = none ∨
        ∃ s, games gameID = some s ∧
          (s.status ≠ .active ∨ playerID ≠ (colorParticipant s).id ∨
            ¬ IsValidMove s.board column = true))) ∧
    (∀ e, (MakeMove games gameID playerID column now).2 = .error e →
      (MakeMove games gameID playerID column now).1 = games) := by
  cases hg : games gameID with
  | none =>
    constructor
    · simp [MakeMove, hg]
    · intro e _
      simp [MakeMove, hg]
  | some s =>
    obtain ⟨h1, h2⟩ := hcolors s hg
    have hbody := MakeMoveBody_error_iff s playerID column now h1 h2
    constructor
    · rw [MakeMove, hg]
      cases hb : MakeMoveBody s playerID column now with
      | error e =>
        simp only [hb]
        have hcond : ∃ e', MakeMoveBody s playerID column now = .error e' := ⟨e, hb⟩
        rw [hbody] at hcond
        constructor
        · intro _
          exact Or.inr ⟨s, rfl, hcond⟩
        · intro _
          exact ⟨e, rfl⟩
      | ok v =>
        simp only [hb]
        have hok : ¬ ∃ e', MakeMoveBody s playerID column now = .error e' := by
          rw [hb]
          rintro ⟨e', he'⟩
          exact absurd he' (by simp)
        rw [hbody] at hok
        push_neg at hok
        constructor
        · rintro ⟨e, he⟩
          exact absurd he (by simp)
        · rintro (h | ⟨s', hs', hcond⟩)
          · exact absurd h (by simp)
          · injection hs' with hs'
            subst hs'
            rcases hcond with h | h | h
            · exact absurd hok.1 h
            · exact absurd hok.2.1 h
            · exact absurd hok.2.2 h
    · intro e he
      rw [MakeMove, hg] at he ⊢
      cases hb : MakeMoveBody s playerID column now with
      | error e' => simp [hb]
      | ok v => simp [hb] at he

/-! ## Session invariants (claims C4, C5): inversion of successful moves -/
theorem handleGameEnd_fields (game : GameState) (winnerID : Option ℤ) (reason : String)
    (column row : ℤ) (color : PlayerColor) (now : ℤ) :
    (handleGameEnd game winnerID reason column row color now).1.player1 = game.player1 ∧
    (handleGameEnd game winnerID reason column row color now).1.player2 = game.player2 ∧
    (handleGameEnd game winnerID reason column row color now).1.board = game.board ∧
    (handleGameEnd game winnerID reason column row color now).1.moveCount = game.moveCount ∧
    (handleGameEnd game winnerID reason column row color now).1.currentTurn = game.currentTurn ∧
    (handleGameEnd game winnerID reason column row color now).1.status ≠ .active := by
  unfold handleGameEnd
  refine ⟨rfl, rfl, rfl, rfl, rfl, ?_⟩
  by_cases hd : reason = "draw" <;> simp [hd]

theorem MakeMoveBody_ok_inv {s : GameState} {pid col now : ℤ}
    {out : GameState × MovePayload × Option GameOverPayload}
    (h : MakeMoveBody s pid col now = .ok out) :
    s.status = .active ∧
    out.1.player1 = s.player1 ∧ out.1.player2 = s.player2 ∧
    out.1.moveCount = s.moveCount + 1 ∧
    (∃ r : ℤ, inB r col ∧ getc s.board r col = 0 ∧
      out.1.board = setc s.board r col (if s.currentTurn = .yellow then 2 else 1)) ∧
    (out.1.status = .active →
      out.1.currentTurn = (if s.currentTurn = .red then PlayerColor.yellow else .red)) := by
  simp only [MakeMoveBody] at h
  by_cases hst : s.status = GameStatus.active
  case neg =>
    rw [if_pos (by simpa using hst)] at h
    exact absurd h (by simp)
  rw [if_neg (by simpa using hst)] at h
  by_cases hpid : (if s.currentTurn = PlayerColor.yellow then s.player2 else s.player1).id ≠ pid
  case pos =>
    rw [if_pos hpid] at h
    exact absurd h (by simp)
  rw [if_neg hpid] at h
  by_cases hval : IsValidMove s.board col = true
  case neg =>
    rw [if_pos (by simpa using hval)] at h
    exact absurd h (by simp)
  rw [if_neg (by simpa using hval)] at h
  obtain ⟨hc0, hc6, -⟩ := (IsValidMove_iff s.board col).mp hval
  obtain ⟨r, hr0, hr6, hcell, heq⟩ :=
    DropDisc_valid s.board col (if s.currentTurn = .yellow then 2 else 1) hval
  rw [heq] at h
  dsimp only at h
  rw [if_neg (by omega : ¬ (r = -1))] at h
  have hbase : ∃ r' : ℤ, inB r' col ∧ getc s.board r' col = 0 ∧
      setc s.board r col (if s.currentTurn = .yellow then 2 else 1) =
        setc s.board r' col (if s.currentTurn = .yellow then 2 else 1) :=
    ⟨r, ⟨hr0, hr6, by omega, by omega⟩, hcell, rfl⟩
  by_cases hwin : CheckWin (setc s.board r col (if s.currentTurn = .yellow then 2 else 1)) r col = true
  · rw [if_pos hwin] at h
    rw [Except.ok.injEq] at h
    subst h
    obtain ⟨f1, f2, f3, f4, -, f6⟩ := handleGameEnd_fields
      { s with board := setc s.board r col (if s.currentTurn = .yellow then 2 else 1),
               moveCount := s.moveCount + 1 }
      (some (if s.currentTurn = PlayerColor.yellow then s.player2 else s.player1).id) "win"
      col r (if s.currentTurn = PlayerColor.yellow then s.player2 else s.player1).color now
    exact ⟨hst, f1, f2, by rw [f4], by rw [f3]; exact hbase, fun hc => absurd hc f6⟩
  · rw [if_neg hwin] at h
    by_cases hfull : IsFull (setc s.board r col (if s.currentTurn = .yellow then 2 else 1)) = true
    · rw [if_pos hfull] at h
      rw [Except.ok.injEq] at h
      subst h
      obtain ⟨f1, f2, f3, f4, -, f6⟩ := handleGameEnd_fields
        { s with board := setc s.board r col (if s.currentTurn = .yellow then 2 else 1),
                 moveCount := s.moveCount + 1 }
        none "draw" col r (if s.currentTurn = PlayerColor.yellow then s.player2 else s.player1).color now
      exact ⟨hst, f1, f2, by rw [f4], by rw [f3]; exact hbase, fun hc => absurd hc f6⟩
    · rw [if_neg hfull] at h
      rw [Except.ok.injEq] at h
      subst h
      exact ⟨hst, rfl, rfl, rfl, hbase, fun _ => rfl⟩

theorem DropDisc_ne_neg1 (b : Board) (col : ℤ) (p : ℕ)
    (h : (DropDisc b col p).2 ≠ -1) :
    ∃ r : ℤ, inB r col ∧ getc b r col = 0 ∧ DropDisc b col p = (setc b r col p, r) := by
  unfold DropDisc at h ⊢
  by_cases hc : col < 0 ∨ col > 6
  · rw [if_pos hc] at h
    simp at h
  · rw [if_neg hc] at h ⊢
    rcases dropLoop_cases b col p [5, 4, 3, 2, 1, 0] with ⟨heq, -⟩ | ⟨r, hmem, hz, heq⟩
    · rw [heq] at h
      simp at h
    · simp at hmem
      exact ⟨r, ⟨by omega, by omega, by omega, by omega⟩, hz, heq⟩

theorem MakeBotMoveBody_ok_inv {s : GameState} {now : ℤ}
    {out : GameState × MovePayload × Option GameOverPayload}
    (h : MakeBotMoveBody s now = .ok out) :
    s.status = .active ∧ s.player2.isBot = true ∧ s.currentTurn = s.player2.color ∧
    out.1.player1 = s.player1 ∧ out.1.player2 = s.player2 ∧
    out.1.moveCount = s.moveCount + 1 ∧
    (∃ r c : ℤ, inB r c ∧ getc s.board r c = 0 ∧ out.1.board = setc s.board r c 2) ∧
    (out.1.status = .active → out.1.currentTurn = .red) := by
  simp only [MakeBotMoveBody] at h
  by_cases hst : s.status = GameStatus.active
  case neg =>
    rw [if_pos (by simpa using hst)] at h
    exact absurd h (by simp)
  rw [if_neg (by simpa using hst)] at h
  by_cases hbot : s.player2.isBot = true
  case neg =>
    rw [if_pos (by simpa using hbot)] at h
    exact absurd h (by simp)
  rw [if_neg (by simpa using hbot)] at h
  by_cases hturn : s.currentTurn = s.player2.color
  case neg =>
    rw [if_pos hturn] at h
    exact absurd h (by simp)
  rw [if_neg (by simpa using hturn)] at h
  by_cases hdrop : (DropDisc s.board (GetBestMove s.board) 2).2 = -1
  case pos =>
    rw [if_pos hdrop] at h
    exact absurd h (by simp)
  rw [if_neg hdrop] at h
  obtain ⟨r, hin, hz, heq⟩ := DropDisc_ne_neg1 s.board (GetBestMove s.board) 2 hdrop
  rw [heq] at h
  dsimp only at h
  have hbase : ∃ r' c' : ℤ, inB r' c' ∧ getc s.board r' c' = 0 ∧
      setc s.board r (GetBestMove s.board) 2 = setc s.board r' c' 2 :=
    ⟨r, GetBestMove s.board, hin, hz, rfl⟩
  by_cases hwin : CheckWin (setc s.board r (GetBestMove s.board) 2) r (GetBestMove s.board) = true
  · rw [if_pos hwin] at h
    rw [Except.ok.injEq] at h
    subst h
    obtain ⟨f1, f2, f3, f4, -, f6⟩ := handleGameEnd_fields
      { s with board := setc s.board r (GetBestMove s.board) 2, moveCount := s.moveCount + 1 }
      (some s.player2.id) "win" (GetBestMove s.board) r s.player2.color now
    exact ⟨hst, hbot, hturn, f1, f2, by rw [f4], by rw [f3]; exact hbase, fun hc => absurd hc f6⟩
  · rw [if_neg hwin] at h
    by_cases hfull : IsFull (setc s.board r (GetBestMove s.board) 2) = true
    · rw [if_pos hfull] at h
      rw [Except.ok.injEq] at h
      subst h
      obtain ⟨f1, f2, f3, f4, -, f6⟩ := handleGameEnd_fields
        { s with board := setc s.board r (GetBestMove s.board) 2, moveCount := s.moveCount + 1 }
        none "draw" (GetBestMove s.board) r s.player2.color now
      exact ⟨hst, hbot, hturn, f1, f2, by rw [f4], by rw [f3]; exact hbase, fun hc => absurd hc f6⟩
    · rw [if_neg hfull] at h
      rw [Except.ok.injEq] at h
      subst h
      exact ⟨hst, hbot, hturn, rfl, rfl, rfl, hbase, fun _ => rfl⟩

theorem Reach_colors {s : GameState} (hs : Reach s) :
    s.player1.color = .red ∧ s.player2.color = .yellow := by
  induction hs with
  | created p1 p2 now h1 h2 => exact ⟨h1, h2⟩
  | move s pid col now out hs h ih =>
    obtain ⟨-, f1, f2, -⟩ := MakeMoveBody_ok_inv h
    rw [f1, f2]
    exact ih
  | botMove s now out hs h ih =>
    obtain ⟨-, -, -, f1, f2, -⟩ := MakeBotMoveBody_ok_inv h
    rw [f1, f2]
    exact ih

theorem Reach_parity_aux {s : GameState} (hs : Reach s) :
    s.status = .active → (s.currentTurn = .red ↔ s.moveCount % 2 = 0) := by
  induction hs with
  | created p1 p2 now h1 h2 =>
    intro _
    simp [CreateGameState]
  | move s pid col now out hs h ih =>
    intro hact
    obtain ⟨hact', -, -, hcount, -, hturn⟩ := MakeMoveBody_ok_inv h
    have ht := hturn hact
    have ihh := ih hact'
    rw [ht, hcount]
    cases hcur : s.currentTurn <;> rw [hcur] at ihh <;> simp_all <;> omega
  | botMove s now out hs h ih =>
    intro hact
    obtain ⟨hact', -, hturncol, -, -, hcount, -, hturn⟩ := MakeBotMoveBody_ok_inv h
    have hyellow : s.currentTurn = .yellow := by
      rw [hturncol, (Reach_colors hs).2]
    have ihh := ih hact'
    rw [hyellow] at ihh
    have hne : s.moveCount % 2 ≠ 0 := by
      intro hmod
      have hcontra := ihh.mpr hmod
      simp at hcontra
    rw [hturn hact, hcount]
    constructor
    · intro _
      omega
    · intro _
      rfl

theorem Reach_count_aux {s : GameState} (hs : Reach s) :
    s.moveCount = countPieces s.board := by
  induction hs with
  | created p1 p2 now h1 h2 =>
    have : countPieces NewBoard = 0 := by decide
    simp [CreateGameState, this]
  | move s pid col now out hs h ih =>
    obtain ⟨-, -, -, hcount, ⟨r, hin, hz, hboard⟩, -⟩ := MakeMoveBody_ok_inv h
    have hv : (if s.currentTurn = PlayerColor.yellow then 2 else 1) ≠ 0 := by
      split <;> simp
    rw [hcount, hboard, countPieces_setc s.board r col _ hin hz hv, ih]
  | botMove s now out hs h ih =>
    obtain ⟨-, -, -, -, -, hcount, ⟨r, c, hin, hz, hboard⟩, -⟩ := MakeBotMoveBody_ok_inv h
    rw [hcount, hboard, countPieces_setc s.board r c 2 hin hz (by simp), ih]

/-- Claim C4: in every GameSession reachable by CreateGame followed by any
sequence of successful MakeMove / MakeBotMove calls, while the status is
Active the turn color is red exactly when the move count is even. -/
theorem reachable_turn_parity (s : GameState) (hs : Reach s)
    (hact : s.status = .active) :
    s.currentTurn = .red ↔ s.moveCount % 2 = 0 :=
  Reach_parity_aux hs hact

theorem reachable_turn_parity_witness :
    demoSession.currentTurn = .red ↔ demoSession.moveCount % 2 = 0 :=
  reachable_turn_parity demoSession (Reach.created alicePlayer bobPlayer 0 rfl rfl) rfl

/-- Claim C5: in every GameSession reachable by CreateGame followed by any
sequence of successful MakeMove / MakeBotMove calls, the move count equals
the number of non-empty board cells. -/
theorem reachable_moveCount_eq_pieces (s : GameState) (hs : Reach s) :
    s.moveCount = countPieces s.board :=
  Reach_count_aux hs

theorem reachable_moveCount_eq_pieces_witness :
    demoSession.moveCount = countPieces demoSession.board :=
  reachable_moveCount_eq_pieces demoSession (Reach.created alicePlayer bobPlayer 0 rfl rfl)

theorem makeMove_error_conditions_witness :
    ((∃ e, (MakeMove demoGames 0 5 3 0).2 = .error e) ↔
      (demoGames 0 = none ∨
        ∃ s, demoGames 0 = some s ∧
          (s.status ≠ .active ∨ (5 : ℤ) ≠ (colorParticipant s).id ∨
            ¬ IsValidMove s.board 3 = true))) ∧
    (∀ e, (MakeMove demoGames 0 5 3 0).2 = .error e →
      (MakeMove demoGames 0 5 3 0).1 = demoGames) :=
  makeMove_error_conditions demoGames 0 5 3 0
    (by
      intro s hs
      injection (show some demoSession = some s from hs) with h
      subst h
      exact ⟨rfl, rfl⟩)

theorem stepPos (r d : ℤ) (i : ℕ) :
    r + ((i + 1 : ℕ) : ℤ) * d = r + d + (i : ℤ) * d := by
  push_cast
  ring

theorem walk_le (b : Board) (p : ℕ) (dr dc : ℤ) :
    ∀ (fuel : ℕ) (r c : ℤ), walk b p dr dc fuel r c ≤ fuel := by
  intro fuel
  induction fuel with
  | zero => intro r c; simp [walk]
  | succ fuel ih =>
    intro r c
    simp only [walk]
    by_cases hc : inB r c ∧ getc b r c = p
    · rw [if_pos hc]
      have := ih (r + dr) (c + dc)
      omega
    · rw [if_neg hc]
      omega

theorem walk_ge_iff (b : Board) (p : ℕ) (dr dc : ℤ) :
    ∀ (fuel k : ℕ) (r c : ℤ), k ≤ fuel →
      (k ≤ walk b p dr dc fuel r c ↔
        ∀ i : ℕ, i < k →
          (inB (r + i * dr) (c + i * dc) ∧ getc b (r + i * dr) (c + i * dc) = p)) := by
  intro fuel
  induction fuel with
  | zero =>
    intro k r c hk
    interval_cases k
    simp [walk]
  | succ fuel ih =>
    intro k r c hk
    cases k with
    | zero => simp
    | succ k =>
      simp only [walk]
      by_cases hc : inB r c ∧ getc b r c = p
      · rw [if_pos hc]
        have hIH := ih k (r + dr) (c + dc) (by omega)
        constructor
        · intro h i hik
          cases i with
          | zero => simpa using hc
          | succ j =>
            have hj := (hIH.mp (by omega)) j (by omega)
            rw [stepPos r dr j, stepPos c dc j]
            exact hj
        · intro h
          have hshift : ∀ i : ℕ, i < k →
              (inB (r + dr + i * dr) (c + dc + i * dc) ∧
                getc b (r + dr + i * dr) (c + dc + i * dc) = p) := by
            intro i hi
            have hstep := h (i + 1) (by omega)
            rw [stepPos r dr i, stepPos c dc i] at hstep
            exact hstep
          have := hIH.mpr hshift
          omega
      · rw [if_neg hc]
        constructor
        · intro h
          omega
        · intro h
          have h0 := h 0 (by omega)
          simp only [Nat.cast_zero, zero_mul, add_zero] at h0
          exact absurd h0 hc

theorem walk_eq_runLen (b : Board) (p : ℕ) (r c dr dc : ℤ) :
    walk b p dr dc 7 (r + dr) (c + dc) = runLen b p r c dr dc := by
  have hle := walk_le b p dr dc 7 (r + dr) (c + dc)
  symm
  rw [runLen, Nat.findGreatest_eq_iff]
  refine ⟨hle, ?_, ?_⟩
  · intro _ i hi
    have hstep := ((walk_ge_iff b p dr dc 7 _ (r + dr) (c + dc) hle).mp le_rfl) i hi
    unfold okStep
    rw [stepPos r dr i, stepPos c dc i]
    exact hstep
  · intro n hwn hn7 hP
    have hn : n ≤ walk b p dr dc 7 (r + dr) (c + dc) := by
      refine (walk_ge_iff b p dr dc 7 n (r + dr) (c + dc) hn7).mpr ?_
      intro i hi
      have hstep := hP i hi
      unfold okStep at hstep
      rw [stepPos r dr i, stepPos c dc i] at hstep
      exact hstep
    omega

/-- Claim C6: for an occupied cell, CheckWin holds exactly when, in one of
the four line orientations, the consecutive same-color cells through the
cell (both directions plus the origin) number at least 4. -/
theorem checkWin_iff_lineCount (b : Board) (row col : ℤ)
    (hocc : getc b row col ≠ 0) :
    CheckWin b row col = true ↔
      ∃ d ∈ winDirections, 4 ≤ lineCount b (getc b row col) row col d.1 d.2 := by
  simp only [CheckWin]
  rw [if_neg hocc, List.any_eq_true]
  refine exists_congr fun d => and_congr_right fun _ => ?_
  unfold checkDirection
  rw [decide_eq_true_iff]
  have hf := walk_eq_runLen b (getc b row col) row col d.1 d.2
  have hb := walk_eq_runLen b (getc b row col) row col (-d.1) (-d.2)
  rw [show row - d.1 = row + -d.1 by ring, show col - d.2 = col + -d.2 by ring, hb]
  rw [hf]
  unfold lineCount
  omega

theorem mem_cols7 (c : ℤ) (h0 : 0 ≤ c) (h6 : c ≤ 6) : c ∈ cols7 := by
  simp [cols7]
  omega

theorem fwmLoop_spec (b : Board) (p : ℕ) (cols : List ℤ) :
    (fwmLoop b p cols = -1 ∧ ∀ c ∈ cols, ¬ winAfterDrop b p c) ∨
    (∃ c ∈ cols, winAfterDrop b p c ∧ fwmLoop b p cols = c) := by
  induction cols with
  | nil => exact Or.inl ⟨rfl, by simp⟩
  | cons c rest ih =>
    by_cases hv : IsValidMove b c = true
    · by_cases hw : CheckWin (DropDisc b c p).1 (DropDisc b c p).2 c = true
      · exact Or.inr ⟨c, by simp, ⟨hv, hw⟩, by simp [fwmLoop, hv, hw]⟩
      · have hre : fwmLoop b p (c :: rest) = fwmLoop b p rest := by
          simp [fwmLoop, hv, hw]
        rcases ih with ⟨h1, h2⟩ | ⟨c', hc', hw', he⟩
        · refine Or.inl ⟨by rw [hre]; exact h1, ?_⟩
          intro x hx
          rcases List.mem_cons.mp hx with rfl | hx
          · exact fun hwin => hw hwin.2
          · exact h2 x hx
        · exact Or.inr ⟨c', List.mem_cons_of_mem _ hc', hw', by rw [hre]; exact he⟩
    · have hre : fwmLoop b p (c :: rest) = fwmLoop b p rest := by
        simp [fwmLoop, hv]
      rcases ih with ⟨h1, h2⟩ | ⟨c', hc', hw', he⟩
      · refine Or.inl ⟨by rw [hre]; exact h1, ?_⟩
        intro x hx
        rcases List.mem_cons.mp hx with rfl | hx
        · exact fun hwin => hv hwin.1
        · exact h2 x hx
      · exact Or.inr ⟨c', List.mem_cons_of_mem _ hc', hw', by rw [hre]; exact he⟩

theorem findWinningMove_finds (b : Board) (p : ℕ) (h : ∃ c, winAfterDrop b p c) :
    winAfterDrop b p (findWinningMove b p) := by
  obtain ⟨c0, hc0⟩ := h
  obtain ⟨h0, h6, -⟩ := (IsValidMove_iff b c0).mp hc0.1
  rcases fwmLoop_spec b p cols7 with ⟨-, hall⟩ | ⟨c', -, hw', he⟩
  · exact absurd hc0 (hall c0 (mem_cols7 c0 h0 h6))
  · unfold findWinningMove
    rw [he]
    exact hw'

theorem findWinningMove_none (b : Board) (p : ℕ) (h : ¬ ∃ c, winAfterDrop b p c) :
    findWinningMove b p = -1 := by
  rcases fwmLoop_spec b p cols7 with ⟨h1, -⟩ | ⟨c', -, hw', -⟩
  · exact h1
  · exact absurd ⟨c', hw'⟩ h

theorem bestLoop_inv (b : Board) (cols : List ℤ) :
    ∀ (bs : FScore) (bc : ℤ),
      (bc = -1 ∨ IsValidMove b bc = true) →
      ((bestLoop b cols bs bc).2 = -1 ∨
        IsValidMove b (bestLoop b cols bs bc).2 = true) := by
  induction cols with
  | nil =>
    intro bs bc hbc
    exact hbc
  | cons c rest ih =>
    intro bs bc hbc
    simp only [bestLoop]
    by_cases hv : IsValidMove b c = true
    · rw [if_pos hv]
      split
      · split
        · exact ih _ _ (Or.inr hv)
        · exact ih _ _ hbc
      · split
        · exact ih _ _ (Or.inr hv)
        · exact ih _ _ hbc
    · rw [if_neg hv]
      exact ih _ _ hbc

theorem firstValid_spec (b : Board) (cols : List ℤ) :
    (firstValid b cols = none ∧ ∀ c ∈ cols, ¬ IsValidMove b c = true) ∨
    (∃ c, firstValid b cols = some c ∧ IsValidMove b c = true) := by
  induction cols with
  | nil => exact Or.inl ⟨rfl, by simp⟩
  | cons c rest ih =>
    by_cases hv : IsValidMove b c = true
    · exact Or.inr ⟨c, by simp [firstValid, hv], hv⟩
    · have hre : firstValid b (c :: rest) = firstValid b rest := by
        simp [firstValid, hv]
      rcases ih with ⟨h1, h2⟩ | ⟨c', h1, h2⟩
      · refine Or.inl ⟨by rw [hre]; exact h1, ?_⟩
        intro x hx
        rcases List.mem_cons.mp hx with rfl | hx
        · exact hv
        · exact h2 x hx
      · exact Or.inr ⟨c', by rw [hre]; exact h1, h2⟩

/-- Claim C7: if some legal column wins immediately for the adversary
(yellow), GetBestMove returns such a column; otherwise, if some legal
column would win immediately for the opponent (red), GetBestMove returns
such a blocking column; in particular on the S6 board (red on the bottom
row of columns 0, 1, 2, no immediate bot win) it returns column 3. -/
theorem getBestMove_probes (b : Board) :
    ((∃ c, winAfterDrop b botNum c) → winAfterDrop b botNum (GetBestMove b)) ∧
    ((¬ ∃ c, winAfterDrop b botNum c) → (∃ c, winAfterDrop b humanNum c) →
      winAfterDrop b humanNum (GetBestMove b)) ∧
    GetBestMove s6Board = 3 := by
  refine ⟨?_, ?_, by decide⟩
  · intro h
    have hwin := findWinningMove_finds b botNum h
    obtain ⟨h0, -, -⟩ := (IsValidMove_iff _ _).mp hwin.1
    have hne : findWinningMove b botNum ≠ -1 := by omega
    simp only [GetBestMove]
    rw [if_pos hne]
    exact hwin
  · intro hno hyes
    have h2 : findWinningMove b botNum = -1 := findWinningMove_none b botNum hno
    have hwin := findWinningMove_finds b humanNum hyes
    obtain ⟨h0, -, -⟩ := (IsValidMove_iff _ _).mp hwin.1
    have hne : findWinningMove b humanNum ≠ -1 := by omega
    simp only [GetBestMove]
    rw [if_neg (by simp [h2]), if_pos hne]
    exact hwin

theorem getBestMove_probes_witness :
    winAfterDrop s6Board humanNum (GetBestMove s6Board) :=
  (getBestMove_probes s6Board).2.1
    (by
      rintro ⟨c, hvalid, hwin⟩
      obtain ⟨h0, h6, -⟩ := (IsValidMove_iff _ _).mp hvalid
      interval_cases c <;> revert hwin <;> decide)
    ⟨3, by decide⟩

/-- Claim C10: whenever some column is legal, GetBestMove returns a column
in 0..6 that is legal (even though alpha-beta scores can in principle all
compare below the initial negative infinity), so the unchecked DropDisc
call inside MakeBotMove never sees an out-of-range column and never
returns row -1 while the board is not full. -/
theorem getBestMove_valid (b : Board) (h : ∃ c, IsValidMove b c = true) :
    0 ≤ GetBestMove b ∧ GetBestMove b ≤ 6 ∧
      IsValidMove b (GetBestMove b) = true ∧
      (DropDisc b (GetBestMove b) 2).2 ≠ -1 := by
  suffices hval : IsValidMove b (GetBestMove b) = true by
    obtain ⟨h0, h6, -⟩ := (IsValidMove_iff _ _).mp hval
    exact ⟨h0, h6, hval, DropDisc_valid_row _ _ _ hval⟩
  obtain ⟨c0, hc0⟩ := h
  obtain ⟨hc00, hc06, -⟩ := (IsValidMove_iff _ _).mp hc0
  simp only [GetBestMove]
  by_cases hw : findWinningMove b botNum ≠ -1
  · rw [if_pos hw]
    rcases fwmLoop_spec b botNum cols7 with ⟨h1, -⟩ | ⟨c', -, hw', he⟩
    · exact absurd h1 hw
    · have heq : findWinningMove b botNum = c' := he
      rw [heq]
      exact hw'.1
  · rw [if_neg hw]
    by_cases hw2 : findWinningMove b humanNum ≠ -1
    · rw [if_pos hw2]
      rcases fwmLoop_spec b humanNum cols7 with ⟨h1, -⟩ | ⟨c', -, hw', he⟩
      · exact absurd h1 hw2
      · have heq : findWinningMove b humanNum = c' := he
        rw [heq]
        exact hw'.1
    · rw [if_neg hw2]
      rcases bestLoop_inv b cols7 FScore.negInf (-1) (Or.inl rfl) with hbc | hbc
      · rw [if_pos hbc]
        by_cases h3 : IsValidMove b 3 = true
        · rw [if_pos h3]
          exact h3
        · rw [if_neg h3]
          rcases firstValid_spec b cols7 with ⟨-, hall⟩ | ⟨c', h1, h2v⟩
          · exact absurd hc0 (hall c0 (mem_cols7 c0 hc00 hc06))
          · rw [h1]
            exact h2v
      · have hne : ¬ ((bestLoop b cols7 FScore.negInf (-1)).2 = -1) := by
          intro hcontra
          rw [hcontra] at hbc
          obtain ⟨hx, -, -⟩ := (IsValidMove_iff b (-1)).mp hbc
          omega
        rw [if_neg hne]
        exact hbc

theorem getBestMove_valid_witness :
    0 ≤ GetBestMove NewBoard ∧ GetBestMove NewBoard ≤ 6 ∧
      IsValidMove NewBoard (GetBestMove NewBoard) = true ∧
      (DropDisc NewBoard (GetBestMove NewBoard) 2).2 ≠ -1 :=
  getBestMove_valid NewBoard ⟨0, by decide⟩

theorem ewStep_two (acc : ℕ × ℕ × ℕ) : ewStep acc 2 = (acc.1 + 1, acc.2.1, acc.2.2) := by
  simp [ewStep, botNum]

theorem ewStep_one (acc : ℕ × ℕ × ℕ) : ewStep acc 1 = (acc.1, acc.2.1 + 1, acc.2.2) := by
  simp [ewStep, botNum, humanNum]

theorem ewStep_other (acc : ℕ × ℕ × ℕ) (x : ℕ) (h2 : x ≠ 2) (h1 : x ≠ 1) :
    ewStep acc x = (acc.1, acc.2.1, acc.2.2 + 1) := by
  simp [ewStep, botNum, humanNum, h1, h2]

theorem evaluateWindow_counts (w : List ℕ) : ∀ a b c : ℕ,
    w.foldl ewStep (a, b, c) =
      (a + w.count 2, b + w.count 1, c + w.countP fun x => !(x == 2) && !(x == 1)) := by
  induction w with
  | nil =>
    intro a b c
    simp
  | cons x xs ih =>
    intro a b c
    rw [List.foldl_cons]
    by_cases h2 : x = 2
    · subst h2
      rw [ewStep_two, ih]
      have hc2 : (2 :: xs).count 2 = xs.count 2 + 1 := by simp
      have hc1 : (2 :: xs).count 1 = xs.count 1 := by simp
      have hcp : (2 :: xs).countP (fun x => !(x == 2) && !(x == 1)) =
          xs.countP (fun x => !(x == 2) && !(x == 1)) := by simp [List.countP_cons]
      rw [hc2, hc1, hcp]
      exact Prod.ext (by omega) (Prod.ext rfl rfl)
    · by_cases h1 : x = 1
      · subst h1
        rw [ewStep_one, ih]
        have hc2 : (1 :: xs).count 2 = xs.count 2 := by simp
        have hc1 : (1 :: xs).count 1 = xs.count 1 + 1 := by simp
        have hcp : (1 :: xs).countP (fun x => !(x == 2) && !(x == 1)) =
            xs.countP (fun x => !(x == 2) && !(x == 1)) := by simp [List.countP_cons]
        rw [hc2, hc1, hcp]
        exact Prod.ext rfl (Prod.ext (by dsimp only; omega) rfl)
      · rw [ewStep_other _ x h2 h1, ih]
        have hc2 : (x :: xs).count 2 = xs.count 2 := by simp [List.count_cons, h2]
        have hc1 : (x :: xs).count 1 = xs.count 1 := by simp [List.count_cons, h1]
        have hcp : (x :: xs).countP (fun x => !(x == 2) && !(x == 1)) =
            xs.countP (fun x => !(x == 2) && !(x == 1)) + 1 := by
          simp [List.countP_cons, h1, h2]
        rw [hc2, hc1, hcp]
        exact Prod.ext rfl (Prod.ext rfl (by dsimp only; omega))

theorem evaluateWindow_eq_spec (w : List ℕ) : evaluateWindow w = specWindowScore w := by
  simp only [evaluateWindow, specWindowScore]
  rw [evaluateWindow_counts w 0 0 0]
  simp

theorem sum_bind_map {α β : Type} (l : List α) (g : α → List β) (f : β → ℤ) :
    ((l.bind g).map f).sum = (l.map fun a => ((g a).map f).sum).sum := by
  induction l with
  | nil => simp
  | cons x xs ih => simp [ih]

/-- Claim C8 (amended): evaluateBoard equals the sum of evaluate_window
over every length-4 window of the board — 24 horizontal, 21 vertical and
12 in each diagonal orientation, 69 windows in total — and a window
contributes +100 with 4 adversary discs, +10 with 3 adversary discs and 1
empty, +5 with 2 adversary discs and 2 empties, and -80 with 3 opponent
discs and 1 empty. -/
theorem evaluateBoard_window_sum (b : Board) :
    evaluateBoard b = (allWindows.map fun w => evaluateWindow (windowCells b w)).sum ∧
    horizWindows.length = 24 ∧ vertWindows.length = 21 ∧
    diagUpWindows.length = 12 ∧ diagDownWindows.length = 12 ∧
    allWindows.length = 69 ∧
    ∀ w, evaluateWindow w = specWindowScore w := by
  refine ⟨?_, by decide, by decide, by decide, by decide, by decide,
    evaluateWindow_eq_spec⟩
  unfold evaluateBoard allWindows
  rw [List.map_append, List.map_append, List.map_append,
      List.sum_append, List.sum_append, List.sum_append]
  unfold horizWindows vertWindows diagUpWindows diagDownWindows
  rw [sum_bind_map, sum_bind_map, sum_bind_map, sum_bind_map]
  simp only [List.map_map]
  rfl

/-- Claim C8 as stated counts 26 horizontal windows; a 6x7 board has 6 rows
times 4 starting columns, so 24 (24 + 21 + 12 + 12 = 69, the claimed total). -/
theorem horizWindows_length_ne_26 : ¬ (horizWindows.length = 26) := by decide

/-- Claim C1 fails on the code: ForfeitGame performs no status check, so a
Completed session is happily forfeited again — the call returns Ok and
rewrites the status. -/
theorem forfeitGame_mutates_completed :
    completedSession.status = GameStatus.completed ∧
    (ForfeitGame forfeitGamesMap 0 1 5).2 = Except.ok () ∧
    ((ForfeitGame forfeitGamesMap 0 1 5).1 0).map GameState.status =
      some GameStatus.forfeited :=
  ⟨rfl, rfl, rfl⟩

theorem updateGame_self (games : GamesMap) (gameID : GameId) (g : GameState) :
    updateGame games gameID g gameID = some g := by
  simp [updateGame]

/-- Claim C1 (amended): ForfeitGame returns an error only when the game id
is absent, leaving the registry unchanged; any existing session, whatever
its status, transitions to Forfeited with completed_at set and the
opponent of loser_id recorded as winner. -/
theorem forfeitGame_spec (games : GamesMap) (gameID : GameId) (playerID now : ℤ) :
    (games gameID = none →
      ForfeitGame games gameID playerID now = (games, .error "game not found")) ∧
    (∀ g, games gameID = some g → g.player1.id ≠ g.player2.id →
      (ForfeitGame games gameID playerID now).2 = .ok () ∧
      (ForfeitGame games gameID playerID now).1 gameID =
        some { g with
               completedAt := some now
               status := .forfeited
               winner := some (if playerID = g.player1.id then g.player2.username
                               else g.player1.username) }) := by
  constructor
  · intro h
    rw [ForfeitGame, h]
  · intro g hg hne
    have hwin : (if (if g.player1.id = playerID then g.player2.id else g.player1.id) =
          g.player1.id then some g.player1.username else some g.player2.username) =
        some (if playerID = g.player1.id then g.player2.username
              else g.player1.username) := by
      by_cases hp : g.player1.id = playerID
      · rw [if_pos hp, if_neg (by omega), if_pos (by omega)]
      · rw [if_neg hp, if_pos rfl, if_neg (by omega)]
    have hF : ForfeitGame games gameID playerID now =
        (updateGame games gameID
          { g with
            completedAt := some now
            status := .forfeited
            winner := if (if g.player1.id = playerID then g.player2.id
                          else g.player1.id) = g.player1.id
                      then some g.player1.username else some g.player2.username },
         .ok ()) := by
      rw [ForfeitGame, hg]
    rw [hF]
    refine ⟨rfl, ?_⟩
    dsimp only
    rw [updateGame_self, hwin]

theorem forfeitGame_spec_witness :
    (ForfeitGame forfeitGamesMap 0 1 5).2 = .ok () ∧
    (ForfeitGame forfeitGamesMap 0 1 5).1 0 =
      some { completedSession with
             completedAt := some 5
             status := .forfeited
             winner := some (if (1 : ℤ) = completedSession.player1.id
                             then completedSession.player2.username
                             else completedSession.player1.username) } :=
  (forfeitGame_spec forfeitGamesMap 0 1 5).2 completedSession rfl (by decide)

/-- Claim C3 fails on the code: HandleReconnection checks only that the
disconnect record exists and that the game id is still in the active-game
registry (which never evicts finished games); it restores a Completed
session and deletes the record. -/
theorem handleReconnection_ignores_status :
    completedSession.status ≠ GameStatus.active ∧
    (HandleReconnection discMap0 forfeitGamesMap "alice").2 =
      .ok (some completedSession) ∧
    (HandleReconnection discMap0 forfeitGamesMap "alice").1 "alice" = none := by
  refine ⟨by decide, rfl, rfl⟩

/-- Claim C3 (amended): HandleReconnection restores exactly when a
DisconnectRecord for the name exists and the recorded game id is present
in the active-game registry, whatever the game's status; the record is
removed exactly then.  With no record it returns nothing; with a record
whose game id is absent it returns an error and keeps the record. -/
theorem handleReconnection_spec (disc : DiscMap) (games : GamesMap) (username : String) :
    (disc username = none →
      HandleReconnection disc games username = (disc, .ok none)) ∧
    (∀ p, disc username = some p →
      (games p.gameId = none →
        HandleReconnection disc games username = (disc, .error "game not found")) ∧
      (∀ g, games p.gameId = some g →
        HandleReconnection disc games username =
          (removeDisc disc username, .ok (some g)))) := by
  refine ⟨?_, ?_⟩
  · intro h
    rw [HandleReconnection, h]
  · intro p hp
    refine ⟨?_, ?_⟩
    · intro hgone
      simp only [HandleReconnection]
      rw [hp]
      dsimp only
      rw [hgone]
    · intro g hg
      simp only [HandleReconnection]
      rw [hp]
      dsimp only
      rw [hg]

theorem handleReconnection_spec_witness :
    HandleReconnection discMap0 demoGames "alice" =
      (removeDisc discMap0 "alice", .ok (some demoSession)) :=
  ((handleReconnection_spec discMap0 demoGames "alice").2 aliceDisc rfl).2 demoSession rfl

/-- Claim C9: JoinQueue on a non-empty queue dequeues the head and pairs it
with the arrival — the head seated red as player 1, the arrival seated
yellow as player 2; with A at the head and B behind, a third joiner is
matched with A while B stays queued. -/
theorem joinQueue_pairs_head (A : WaitingPlayer) (rest : List WaitingPlayer)
    (username socketID : String) (resolvedID : ℤ)
    (h : ∀ p ∈ A :: rest, p.username ≠ username) :
    JoinQueue (A :: rest) username socketID resolvedID =
      (rest, .ok (some (matchP1Info A,
        matchP2Info { username := username, playerId := resolvedID,
                      socketId := socketID, timerDone := false }))) := by
  have hany : ¬ ((A :: rest).any fun p => p.username = username) = true := by
    rw [List.any_eq_true]
    rintro ⟨p, hp, hpe⟩
    exact h p hp (by simpa using hpe)
  simp only [JoinQueue]
  rw [if_neg hany]

theorem joinQueue_pairs_head_witness :
    JoinQueue [aliceWaiting, bobWaiting] "cathy" "s3" 3 =
      ([bobWaiting], .ok (some (matchP1Info aliceWaiting,
        matchP2Info { username := "cathy", playerId := 3, socketId := "s3",
                      timerDone := false }))) :=
  joinQueue_pairs_head aliceWaiting [bobWaiting] "cathy" "s3" 3 (by decide)

theorem checkWin_iff_lineCount_witness :
    CheckWin winBoard 5 0 = true ↔
      ∃ d ∈ winDirections, 4 ≤ lineCount winBoard (getc winBoard 5 0) 5 0 d.1 d.2 :=
  checkWin_iff_lineCount winBoard 5 0 (by decide)
